import Mathlib

/-!
Shallow embedding of `src/main.py` from the `bot_tele_common` repository
(a ClickUp → Telegram webhook relay), covering the parts the verified
claims are about: the overdue check (`check_overdue`), the tag-based
routing resolver (`get_all_chat_ids_from_tags`), the task statistics
aggregator (`analyze_tasks`), the per-user ranking used by the report
renderers, the completion-timing classification of the status-change
branch of the webhook handler, and the tag-changed slice of that handler.

Time is modelled as integer epoch milliseconds: the Python code converts
a millisecond timestamp to an aware `datetime` and compares instants, so
order and equality of instants coincide with order and equality of the
millisecond values.  Fields that Python reads fallibly (missing keys,
unparseable strings caught by `try/except`) are modelled by explicit
inductive shapes.
-/

namespace BotTele

/-- Models Python `str.lower` on a single character, restricted to the
character set actually occurring in the status/tag vocabulary of this program
(ASCII letters plus the `É` of `achevé`); `Char.toLower` handles the
ASCII range. -/
def pyLowerChar (c : Char) : Char :=
  if c = 'É' then 'é' else c.toLower

/-- Models Python `str.lower` for the strings this program compares,
lowering every character. -/
def pyLower (s : String) : String :=
  ⟨s.data.map pyLowerChar⟩

/-- Models Python `pat in s` (substring containment) on strings. -/
def pyIn (pat s : String) : Bool :=
  decide (pat.data <:+: s.data)

/-- The shape of a `due_date` field as `check_overdue` receives it:
`missing` for `None`/empty/falsy values, `malformed raw` for a truthy
value that `int(...)` / `datetime.fromtimestamp` rejects (the
`try/except` path), `valid ms` for a value parsed as epoch
milliseconds. -/
inductive DueDate where
  | missing
  | malformed (raw : String)
  | valid (ms : Int)
deriving DecidableEq, Repr

/-- Python truthiness of the `due_date` field: `if not due_date` takes
the `missing` branch only. -/
def DueDate.truthy : DueDate → Bool
  | .missing => false
  | .malformed _ => true
  | .valid _ => true

/-- Embeds `check_overdue` (src/main.py:77-86): `False` on a falsy due
date, `False` when parsing/conversion raises (caught by the bare
`except`), otherwise `now_vn > due_vn`, i.e. strict comparison of the
two instants in milliseconds. -/
def check_overdue (nowMs : Int) : DueDate → Bool
  | .missing => false
  | .malformed _ => false
  | .valid ms => decide (nowMs > ms)

/-! ### Tag routing (src/main.py:108-144, `get_all_chat_ids_from_tags`) -/

/-- The static `TAG_TO_CHAT_ID` mapping (src/main.py:30-35); the
`default` entry comes from the `CHAT_ID` environment variable and is a
parameter of the resolver below. -/
def CHAT_content : String := "-1003036322284"

def CHAT_dev : String := "-1002896048137"

def CHAT_admin : String := "-1003086591861"

/-- A member of the `tags` list of the webhook payload: a dict with an optional
`name` key (`tag.get("name", "")`), a plain string, or any other shape
(which the extraction loop skips). -/
inductive Tag where
  | dict (name : Option String)
  | str (s : String)
  | other
deriving DecidableEq, Repr

/-- The `tag_names` extraction loop: dict-shaped tags contribute
`tag.get("name", "").lower()`, string-shaped tags contribute
`tag.lower()`, anything else is skipped. -/
def tag_names (tags : List Tag) : List String :=
  tags.filterMap fun t =>
    match t with
    | .dict name => some (pyLower (name.getD ""))
    | .str s => some (pyLower s)
    | .other => none

/-- Models `set.add`: the Python code accumulates chat ids in a `set`;
we model the set as a duplicate-free list in insertion order (the
claims about the result are about membership, which is
order-insensitive). -/
def addChat (x : String) (l : List String) : List String :=
  if x ∈ l then l else l ++ [x]

/-- One iteration of the `for tag_name in tag_names` loop: the three
substring checks are independent `if`s, not `elif`s. -/
def addChatsFor (acc : List String) (tagName : String) : List String :=
  let acc := if pyIn "content" tagName then addChat CHAT_content acc else acc
  let acc := if pyIn "dev" tagName || pyIn "developer" tagName then addChat CHAT_dev acc else acc
  if pyIn "admin" tagName then addChat CHAT_admin acc else acc

/-- Embeds `get_all_chat_ids_from_tags` (src/main.py:108-144): falsy
`tags` returns `[default]`; otherwise every tag name is checked against
all three keywords, and if nothing matched the default is used. -/
def get_all_chat_ids_from_tags (default : String) (tags : List Tag) : List String :=
  if tags.isEmpty then [default]
  else
    let chat_ids := (tag_names tags).foldl addChatsFor []
    if chat_ids.isEmpty then [default] else chat_ids

/-! ### Task statistics aggregator (src/main.py:334-416, `analyze_tasks`) -/

/-- The completed-status synonym list of `analyze_tasks` and of the
status-change branch of the webhook handler (src/main.py:355, 1259). -/
def completedStatuses : List String :=
  ["complete", "completed", "closed", "done", "achevé"]

/-- The in-progress synonym list (src/main.py:356). -/
def inProgressStatuses : List String :=
  ["in progress", "en cours", "doing"]

/-- A task record as `analyze_tasks` reads it: `status` is the string
under `task["status"]["status"]` (the empty string when the status
field is absent or not a dict), `due_date` the due-date field,
`assignees` the resolved `assignee.get("username", "Unknown")` strings
in list order, and `priority_id` the integer resolved from the
`priority` field (`None` when absent or non-integer). -/
structure TaskRec where
  status : String
  due_date : DueDate
  assignees : List String
  priority_id : Option Int
deriving DecidableEq, Repr

/-- One per-user bucket of `stats["by_user"]`.  Counts are integers, as
in Python. -/
structure UserStats where
  completed : Int
  pending : Int
  overdue : Int
  in_progress : Int
  total : Int
deriving DecidableEq, Repr

/-- The zero bucket created when a username is first seen
(src/main.py:378-385). -/
def UserStats.zero : UserStats := ⟨0, 0, 0, 0, 0⟩

/-- The `by_priority` histogram. -/
structure PriorityStats where
  urgent : Int
  high : Int
  normal : Int
  low : Int
deriving DecidableEq, Repr

/-- The `stats` dictionary built by `analyze_tasks`; `by_user` is an
association list in insertion order (Python dicts preserve insertion
order, which the ranking in the report renderers depends on). -/
structure Stats where
  total : Int
  completed : Int
  pending : Int
  overdue : Int
  unassigned : Int
  in_progress : Int
  by_user : List (String × UserStats)
  by_priority : PriorityStats
deriving DecidableEq, Repr

/-- The initial `stats` value (src/main.py:335-349): `total` is set to
`len(tasks)` up front, everything else to zero/empty. -/
def initStats (n : Nat) : Stats :=
  ⟨(n : Int), 0, 0, 0, 0, 0, [], ⟨0, 0, 0, 0⟩⟩

/-- Models the by-user dictionary update: a username not yet present
gets a zero bucket appended at the end, an existing key keeps its
position, and `f` is the mutation applied to the bucket. -/
def updateUser (m : List (String × UserStats)) (u : String)
    (f : UserStats → UserStats) : List (String × UserStats) :=
  match m with
  | [] => [(u, f UserStats.zero)]
  | (k, v) :: rest =>
    if k = u then (k, f v) :: rest else (k, v) :: updateUser rest u f

/-- The per-assignee bucket update (src/main.py:387-399): `total` always
increments; a completed task increments `completed`, otherwise `pending`
increments and `in_progress`/`overdue` increment when their flags
hold. -/
def bumpUser (isC isIP isOD : Bool) (us : UserStats) : UserStats :=
  let us := { us with total := us.total + 1 }
  if isC then { us with completed := us.completed + 1 }
  else
    let us := { us with pending := us.pending + 1 }
    let us := if isIP then { us with in_progress := us.in_progress + 1 } else us
    if isOD then { us with overdue := us.overdue + 1 } else us

/-- The priority histogram update (src/main.py:401-414): an `elif`
chain over the resolved priority id; ids outside 1–4 (or a missing
priority) touch nothing. -/
def bumpPriorities (p : Option Int) (bp : PriorityStats) : PriorityStats :=
  if p = some 1 then { bp with urgent := bp.urgent + 1 }
  else if p = some 2 then { bp with high := bp.high + 1 }
  else if p = some 3 then { bp with normal := bp.normal + 1 }
  else if p = some 4 then { bp with low := bp.low + 1 }
  else bp

/-- One iteration of the `for assignee in assignees` loop
(src/main.py:375-399): only `stats["by_user"]` is touched. -/
def assignStep (isC isIP isOD : Bool) (st : Stats) (u : String) : Stats :=
  { st with by_user := updateUser st.by_user u (bumpUser isC isIP isOD) }

/-- The body of the `for task in tasks` loop of `analyze_tasks`
(src/main.py:351-414) for one task. -/
def processTask (nowMs : Int) (stats : Stats) (t : TaskRec) : Stats :=
  let s := pyLower t.status
  let isC := decide (s ∈ completedStatuses)
  let isIP := decide (s ∈ inProgressStatuses)
  let isOD := t.due_date.truthy && check_overdue nowMs t.due_date
  let stats :=
    if isC then { stats with completed := stats.completed + 1 }
    else
      let stats := { stats with pending := stats.pending + 1 }
      let stats :=
        if isIP then { stats with in_progress := stats.in_progress + 1 } else stats
      if isOD then { stats with overdue := stats.overdue + 1 } else stats
  let stats :=
    if t.assignees.isEmpty then { stats with unassigned := stats.unassigned + 1 }
    else t.assignees.foldl (assignStep isC isIP isOD) stats
  { stats with by_priority := bumpPriorities t.priority_id stats.by_priority }

/-- Embeds `analyze_tasks` (src/main.py:334-416), with the evaluation
instant (`get_vn_now()` inside `check_overdue`) passed explicitly. -/
def analyze_tasks (nowMs : Int) (tasks : List TaskRec) : Stats :=
  tasks.foldl (processTask nowMs) (initStats tasks.length)

/-- The data-model invariant claimed for one per-user bucket: all
counts non-negative and `completed + pending = total`. -/
def userInv (us : UserStats) : Prop :=
  us.completed + us.pending = us.total ∧
  0 ≤ us.completed ∧ 0 ≤ us.pending ∧ 0 ≤ us.overdue ∧
  0 ≤ us.in_progress ∧ 0 ≤ us.total

/-- The data-model invariant claimed for the whole statistics object:
all counts non-negative, `completed + pending = total`, and every
per-user bucket satisfies its own invariant. -/
def statsInv (s : Stats) : Prop :=
  s.completed + s.pending = s.total ∧
  0 ≤ s.completed ∧ 0 ≤ s.pending ∧ 0 ≤ s.overdue ∧ 0 ≤ s.unassigned ∧
  0 ≤ s.in_progress ∧ 0 ≤ s.total ∧
  0 ≤ s.by_priority.urgent ∧ 0 ≤ s.by_priority.high ∧
  0 ≤ s.by_priority.normal ∧ 0 ≤ s.by_priority.low ∧
  ∀ p ∈ s.by_user, userInv p.2

/-! ### Per-user ranking in the report renderers
(src/main.py:554-575 `generate_report`, src/main.py:633-664
`generate_weekly_report_html`; both use the same `sorted(...)` call) -/

/-- The sort key of the ranking, an exact rational: completed over
total when total is positive, zero otherwise. -/
def kpiKey (us : UserStats) : ℚ :=
  if 0 < us.total then (us.completed : ℚ) / (us.total : ℚ) else 0

/-- The "comes no later than" relation realised by Python
`sorted(..., key=kpiKey, reverse=True)`: descending by key. -/
def userDescLe (a b : String × UserStats) : Bool :=
  decide (kpiKey b.2 ≤ kpiKey a.2)

/-- Embeds the `sorted_users` computation of both report renderers:
the `sorted` builtin is a stable sort, and with `reverse=True` it yields
the descending stable ordering, i.e. a stable merge sort under
`userDescLe`. -/
def sorted_users (m : List (String × UserStats)) : List (String × UserStats) :=
  m.mergeSort userDescLe

/-! ### Completion-timing classification (src/main.py:1259-1291),
inside the `status` branch of the `taskUpdated` event handler -/

/-- The three completion-timing message variants: late deadline,
ahead of schedule, on schedule. -/
inductive Timing where
  | late
  | early
  | onTime
deriving DecidableEq, Repr

/-- Computes `hours_diff = time_diff.total_seconds() / 3600` where
`time_diff = due_datetime - now_datetime`; both instants are in epoch
milliseconds, so the total seconds are `(dueMs - nowMs) / 1000`, as an
exact rational. -/
def hours_diff (dueMs nowMs : Int) : ℚ :=
  (((dueMs - nowMs : Int) : ℚ) / 1000) / 3600

/-- The classification chain (src/main.py:1272-1287): `hours_diff < 0`
→ late-deadline variant, `hours_diff >= 24` → ahead-of-schedule
variant, otherwise on-schedule variant. -/
def classify_completion (dueMs nowMs : Int) : Timing :=
  if hours_diff dueMs nowMs < 0 then .late
  else if 24 ≤ hours_diff dueMs nowMs then .early
  else .onTime

/-- The guard around the classification (src/main.py:1259-1291): it
runs only when `new_status.lower()` is a completion synonym and the
task has a truthy, parseable due date (a malformed one raises inside
the `try`, leaving no timing variant; a falsy one takes the plain
"HOÀN THÀNH!" branch). -/
def completion_timing (new_status : String) (due : DueDate) (nowMs : Int) : Option Timing :=
  if pyLower new_status ∈ completedStatuses then
    match due with
    | .valid ms => some (classify_completion ms nowMs)
    | _ => none
  else none

/-! ### Tag-changed slice of the webhook handler (src/main.py:1196-1244)

The handler fetches the task once up front (src/main.py:1120) and
computes `target_chat_ids` from the tags of that snapshot (src/main.py:1128).
Then, looping over the history items: a `tag_added` item calls
`get_task_info` again and routes its notification by the tags of the
re-fetched snapshot, sending nothing if the re-fetch fails
(src/main.py:1201-1226); a `tag_removed` item sends its notification to
`target_chat_ids`, the routing of the initial snapshot, with no
re-fetch (src/main.py:1228-1244). -/

/-- The slice of a fetched task record that routing depends on. -/
structure TaskSnapshot where
  tags : List Tag
deriving DecidableEq, Repr

/-- A `history_items` entry, reduced to its `field` discriminator and
the tag name the message body uses. -/
inductive HistoryItem where
  | tag_added (name : String)
  | tag_removed (name : String)
  | otherField
deriving DecidableEq, Repr

/-- Processes the tag-change loop over `history_items`, returning the
chat-id list used for each send, in order.  `fetches` is the oracle of
successive `get_task_info(task_id, force_refresh=True)` results
consumed by `tag_added` items (a `none` models a failed fetch, an
exhausted oracle likewise). -/
def tagEventSends (default : String) (initialChats : List String) :
    List (Option TaskSnapshot) → List HistoryItem → List (List String)
  | fetches, [] => match fetches with | _ => []
  | fetches, .tag_added _ :: rest =>
    match fetches with
    | some fresh :: fs =>
      get_all_chat_ids_from_tags default fresh.tags :: tagEventSends default initialChats fs rest
    | none :: fs => tagEventSends default initialChats fs rest
    | [] => tagEventSends default initialChats [] rest
  | fetches, .tag_removed _ :: rest =>
    initialChats :: tagEventSends default initialChats fetches rest
  | fetches, .otherField :: rest =>
    tagEventSends default initialChats fetches rest

/-- The tag-change handling of the `taskUpdated` event, starting from
the initial snapshot fetched at src/main.py:1120: `target_chat_ids` is
computed from the initial tags and the history loop runs with it. -/
def webhookTagSends (default : String) (initial : TaskSnapshot)
    (fetches : List (Option TaskSnapshot)) (items : List HistoryItem) : List (List String) :=
  tagEventSends default (get_all_chat_ids_from_tags default initial.tags) fetches items

/-- Restates, for use in theorem statements, the three independent
keyword checks of the routing loop: `x` is a destination that tag name
`n` matches. -/
def matchesChat (x n : String) : Prop :=
  (x = CHAT_content ∧ pyIn "content" n) ∨
  (x = CHAT_dev ∧ (pyIn "dev" n ∨ pyIn "developer" n)) ∨
  (x = CHAT_admin ∧ pyIn "admin" n)

instance (x n : String) : Decidable (matchesChat x n) := by
  unfold matchesChat; infer_instance

/-! ### Lemmas about the routing resolver -/

theorem mem_addChat {x c : String} {l : List String} :
    x ∈ addChat c l ↔ x = c ∨ x ∈ l := by
  unfold addChat
  split
  · rename_i h
    constructor
    · exact fun hx => Or.inr hx
    · rintro (rfl | hx)
      · exact h
      · exact hx
  · simp [List.mem_append, or_comm]

theorem mem_addChatsFor {x n : String} {acc : List String} :
    x ∈ addChatsFor acc n ↔ x ∈ acc ∨ matchesChat x n := by
  unfold addChatsFor matchesChat
  split_ifs with h1 h2 h3 <;>
    simp_all [mem_addChat] <;> tauto

theorem mem_foldl_addChatsFor (l : List String) (acc : List String) (x : String) :
    x ∈ l.foldl addChatsFor acc ↔ x ∈ acc ∨ ∃ n ∈ l, matchesChat x n := by
  induction l generalizing acc with
  | nil => simp
  | cons n rest ih =>
    rw [List.foldl_cons, ih]
    simp [mem_addChatsFor]
    tauto

theorem nodup_addChat {c : String} {l : List String} (h : l.Nodup) :
    (addChat c l).Nodup := by
  unfold addChat
  split
  · exact h
  · rename_i hc
    simp [List.nodup_append, h, hc]

theorem nodup_addChatsFor {n : String} {acc : List String} (h : acc.Nodup) :
    (addChatsFor acc n).Nodup := by
  unfold addChatsFor
  split_ifs <;> repeat first | exact h | apply nodup_addChat

theorem nodup_foldl_addChatsFor (l : List String) (acc : List String) (h : acc.Nodup) :
    (l.foldl addChatsFor acc).Nodup := by
  induction l generalizing acc with
  | nil => exact h
  | cons n rest ih => exact ih _ (nodup_addChatsFor h)

/-- Membership characterisation of the resolver: a chat id is in the
result iff some extracted tag name matches it, or it is the default and
nothing matched at all. -/
theorem mem_get_all_chat_ids (default : String) (tags : List Tag) (x : String) :
    x ∈ get_all_chat_ids_from_tags default tags ↔
      (∃ n ∈ tag_names tags, matchesChat x n) ∨
      (x = default ∧ ∀ n ∈ tag_names tags, ∀ y, ¬ matchesChat y n) := by
  unfold get_all_chat_ids_from_tags
  dsimp only
  split
  · rename_i hempty
    have : tags = [] := by simpa [List.isEmpty_iff] using hempty
    subst this
    simp [tag_names]
  · rename_i hne
    have key : ∀ y, y ∈ (tag_names tags).foldl addChatsFor [] ↔
        ∃ n ∈ tag_names tags, matchesChat y n := by
      intro y
      rw [mem_foldl_addChatsFor]
      simp
    split
    · rename_i hnil
      have hforall : ∀ n ∈ tag_names tags, ∀ y, ¬ matchesChat y n := by
        intro n hn y hy
        have : y ∈ (tag_names tags).foldl addChatsFor [] := (key y).mpr ⟨n, hn, hy⟩
        rw [List.isEmpty_iff.mp hnil] at this
        exact absurd this (List.not_mem_nil y)
      constructor
      · rintro hx
        right
        exact ⟨by simpa using hx, hforall⟩
      · rintro (⟨n, hn, hm⟩ | ⟨rfl, -⟩)
        · exact absurd hm (hforall n hn x)
        · simp
    · rename_i hnnil
      rw [key x]
      constructor
      · exact Or.inl
      · rintro (h | ⟨rfl, hnone⟩)
        · exact h
        · exfalso
          apply hnnil
          rw [List.isEmpty_iff, List.eq_nil_iff_forall_not_mem]
          intro y hy
          obtain ⟨n, hn, hm⟩ := (key y).mp hy
          exact hnone n hn y hm

theorem addChatsFor_of_no_match {acc : List String} {n : String}
    (h1 : pyIn "content" n = false) (h2 : pyIn "dev" n = false)
    (h3 : pyIn "developer" n = false) (h4 : pyIn "admin" n = false) :
    addChatsFor acc n = acc := by
  unfold addChatsFor
  simp [h1, h2, h3, h4]

theorem foldl_addChatsFor_of_no_match {l acc : List String}
    (h : ∀ n ∈ l, pyIn "content" n = false ∧ pyIn "dev" n = false ∧
      pyIn "developer" n = false ∧ pyIn "admin" n = false) :
    l.foldl addChatsFor acc = acc := by
  induction l generalizing acc with
  | nil => rfl
  | cons n rest ih =>
    obtain ⟨h1, h2, h3, h4⟩ := h n (List.mem_cons_self n rest)
    rw [List.foldl_cons, addChatsFor_of_no_match h1 h2 h3 h4]
    exact ih fun m hm => h m (List.mem_cons_of_mem n hm)

/-- C2: the routing resolver returns the union of all matching
destinations — any tag name containing `content` puts the content chat
in the result, any containing `dev`/`developer` the dev chat, any
containing `admin` the admin chat, independently; nothing besides the
matched destinations (or the default) appears; and a tag set matching
both `admin` and `content` routes to both chats. -/
theorem routing_multi_match_union (default : String) (tags : List Tag) :
    (∀ n ∈ tag_names tags,
      (pyIn "content" n = true →
        CHAT_content ∈ get_all_chat_ids_from_tags default tags) ∧
      (pyIn "dev" n = true ∨ pyIn "developer" n = true →
        CHAT_dev ∈ get_all_chat_ids_from_tags default tags) ∧
      (pyIn "admin" n = true →
        CHAT_admin ∈ get_all_chat_ids_from_tags default tags)) ∧
    (∀ x ∈ get_all_chat_ids_from_tags default tags,
      x = default ∨ ∃ n ∈ tag_names tags, matchesChat x n) ∧
    ((∃ n ∈ tag_names tags, pyIn "admin" n = true) →
      (∃ n ∈ tag_names tags, pyIn "content" n = true) →
      CHAT_admin ∈ get_all_chat_ids_from_tags default tags ∧
      CHAT_content ∈ get_all_chat_ids_from_tags default tags) := by
  refine ⟨fun n hn => ⟨fun hp => ?_, fun hp => ?_, fun hp => ?_⟩, fun x hx => ?_, ?_⟩
  · exact (mem_get_all_chat_ids default tags _).mpr (Or.inl ⟨n, hn, Or.inl ⟨rfl, hp⟩⟩)
  · exact (mem_get_all_chat_ids default tags _).mpr
      (Or.inl ⟨n, hn, Or.inr (Or.inl ⟨rfl, hp⟩)⟩)
  · exact (mem_get_all_chat_ids default tags _).mpr
      (Or.inl ⟨n, hn, Or.inr (Or.inr ⟨rfl, hp⟩)⟩)
  · rcases (mem_get_all_chat_ids default tags x).mp hx with h | ⟨rfl, -⟩
    · exact Or.inr h
    · exact Or.inl rfl
  · rintro ⟨n, hn, ha⟩ ⟨m, hm, hc⟩
    exact ⟨(mem_get_all_chat_ids default tags _).mpr
        (Or.inl ⟨n, hn, Or.inr (Or.inr ⟨rfl, ha⟩)⟩),
      (mem_get_all_chat_ids default tags _).mpr (Or.inl ⟨m, hm, Or.inl ⟨rfl, hc⟩⟩)⟩

theorem routing_multi_match_union_witness :
    CHAT_admin ∈ get_all_chat_ids_from_tags "D" [Tag.str "admin", Tag.str "content"] ∧
    CHAT_content ∈ get_all_chat_ids_from_tags "D" [Tag.str "admin", Tag.str "content"] :=
  (routing_multi_match_union "D" [Tag.str "admin", Tag.str "content"]).2.2
    (by decide) (by decide)

/-- C3: when no extracted tag name contains any of the recognised
keywords (`content`, `dev`, `developer`, `admin`) — in particular for an
empty or missing tag list — the resolver returns exactly the single
configured default destination. -/
theorem routing_default_fallback (default : String) (tags : List Tag)
    (h : ∀ n ∈ tag_names tags,
      pyIn "content" n = false ∧ pyIn "dev" n = false ∧
      pyIn "developer" n = false ∧ pyIn "admin" n = false) :
    get_all_chat_ids_from_tags default tags = [default] := by
  unfold get_all_chat_ids_from_tags
  dsimp only
  split
  · rfl
  · rw [foldl_addChatsFor_of_no_match h]
    rfl

theorem routing_default_fallback_witness :
    get_all_chat_ids_from_tags "D" [Tag.str "hello"] = ["D"] ∧
    get_all_chat_ids_from_tags "D" [] = ["D"] :=
  ⟨routing_default_fallback "D" [Tag.str "hello"] (by decide),
    routing_default_fallback "D" [] (by decide)⟩

/-- C10: for every input tag list the result of the resolver is non-empty
(at least the default destination survives) and contains no duplicate
chat identifiers, the accumulated set never admitting a repeat. -/
theorem routing_nonempty_nodup (default : String) (tags : List Tag) :
    get_all_chat_ids_from_tags default tags ≠ [] ∧
    (get_all_chat_ids_from_tags default tags).Nodup := by
  unfold get_all_chat_ids_from_tags
  dsimp only
  split
  · simp
  · split
    · simp
    · rename_i h
      exact ⟨by simpa [List.isEmpty_iff] using h,
        nodup_foldl_addChatsFor _ _ List.nodup_nil⟩

/-! ### Lemmas about the statistics aggregator -/

theorem foldl_assignStep (c ip od : Bool) (l : List String) (s : Stats) :
    l.foldl (assignStep c ip od) s =
      { s with by_user := l.foldl (fun m u => updateUser m u (bumpUser c ip od)) s.by_user } := by
  induction l generalizing s with
  | nil => rfl
  | cons u rest ih =>
    rw [List.foldl_cons, List.foldl_cons, ih]
    rfl

/-- How one task changes the `overdue` count. -/
theorem processTask_overdue (nowMs : Int) (s : Stats) (t : TaskRec) :
    (processTask nowMs s t).overdue =
      if pyLower t.status ∉ completedStatuses ∧
          (t.due_date.truthy && check_overdue nowMs t.due_date) = true
      then s.overdue + 1 else s.overdue := by
  unfold processTask
  dsimp only
  rw [foldl_assignStep]
  split_ifs <;> simp_all

/-- A truthy due date that `check_overdue` accepts is exactly a parsed
millisecond timestamp strictly before the evaluation instant. -/
theorem truthy_check_overdue_iff (nowMs : Int) (d : DueDate) :
    (d.truthy && check_overdue nowMs d) = true ↔
      ∃ ms, d = .valid ms ∧ ms < nowMs := by
  cases d <;> simp [DueDate.truthy, check_overdue]

/-- C4: in the aggregator a task increments `overdue` iff its
(lowercased) status is not a completion synonym and its due date parses
to an instant strictly before the evaluation instant; a completed task
never increments `overdue`, and a due date equal to the instant does
not count. -/
theorem overdue_count_iff (nowMs : Int) (s : Stats) (t : TaskRec) :
    ((processTask nowMs s t).overdue = s.overdue + 1 ↔
      pyLower t.status ∉ completedStatuses ∧
        ∃ ms, t.due_date = .valid ms ∧ ms < nowMs) ∧
    ((processTask nowMs s t).overdue = s.overdue ↔
      ¬(pyLower t.status ∉ completedStatuses ∧
        ∃ ms, t.due_date = .valid ms ∧ ms < nowMs)) := by
  rw [processTask_overdue]
  split_ifs with h
  · have hc : pyLower t.status ∉ completedStatuses ∧
        ∃ ms, t.due_date = .valid ms ∧ ms < nowMs :=
      ⟨h.1, (truthy_check_overdue_iff nowMs t.due_date).mp h.2⟩
    refine ⟨by simp [hc], ?_, fun hn => absurd hc hn⟩
    intro he
    omega
  · have hc : ¬(pyLower t.status ∉ completedStatuses ∧
        ∃ ms, t.due_date = .valid ms ∧ ms < nowMs) := by
      rintro ⟨ha, hex⟩
      exact h ⟨ha, (truthy_check_overdue_iff nowMs t.due_date).mpr hex⟩
    refine ⟨⟨fun he => ?_, fun hx => absurd hx hc⟩, by simp [hc]⟩
    omega

/-- C5: a task with an empty assignee list increments `unassigned` by
one and leaves `by_user` untouched; a task with at least one assignee
leaves `unassigned` untouched. -/
theorem unassigned_count (nowMs : Int) (s : Stats) (t : TaskRec) :
    (t.assignees = [] →
      (processTask nowMs s t).unassigned = s.unassigned + 1 ∧
      (processTask nowMs s t).by_user = s.by_user) ∧
    (t.assignees ≠ [] →
      (processTask nowMs s t).unassigned = s.unassigned) := by
  unfold processTask
  dsimp only
  rw [foldl_assignStep]
  constructor
  · intro he
    rw [he]
    split_ifs <;> simp_all
  · intro hne
    have : t.assignees.isEmpty = false := by
      simpa [List.isEmpty_iff] using hne
    split_ifs <;> simp_all

theorem unassigned_count_witness :
    (processTask 0 (initStats 2) ⟨"to do", .missing, [], none⟩).unassigned =
      (initStats 2).unassigned + 1 ∧
    (processTask 0 (initStats 2) ⟨"to do", .missing, [], none⟩).by_user =
      (initStats 2).by_user ∧
    (processTask 0 (initStats 2) ⟨"to do", .missing, ["alice"], none⟩).unassigned =
      (initStats 2).unassigned :=
  ⟨((unassigned_count 0 (initStats 2) ⟨"to do", .missing, [], none⟩).1 rfl).1,
    ((unassigned_count 0 (initStats 2) ⟨"to do", .missing, [], none⟩).1 rfl).2,
    (unassigned_count 0 (initStats 2) ⟨"to do", .missing, ["alice"], none⟩).2 (by decide)⟩

/-- C9: `check_overdue` is total — a missing (falsy) due date and an
unparseable one both yield `False` (the falsy check of the code and its
bare `except` respectively), so such a task is never counted
overdue. -/
theorem check_overdue_total (nowMs : Int) (raw : String) (s : Stats) (t : TaskRec) :
    check_overdue nowMs .missing = false ∧
    check_overdue nowMs (.malformed raw) = false ∧
    ((t.due_date = .missing ∨ t.due_date = .malformed raw) →
      (processTask nowMs s t).overdue = s.overdue) := by
  refine ⟨rfl, rfl, fun h => ?_⟩
  rw [processTask_overdue]
  rcases h with h | h <;> rw [h] <;> simp [DueDate.truthy, check_overdue]

theorem check_overdue_total_witness :
    check_overdue 99 .missing = false ∧
    check_overdue 99 (.malformed "not-a-number") = false ∧
    (processTask 99 (initStats 1) ⟨"open", .malformed "not-a-number", [], none⟩).overdue =
      (initStats 1).overdue :=
  ⟨(check_overdue_total 99 "x" (initStats 1) ⟨"open", .missing, [], none⟩).1,
    (check_overdue_total 99 "not-a-number" (initStats 1)
      ⟨"open", .malformed "not-a-number", [], none⟩).2.1,
    (check_overdue_total 99 "not-a-number" (initStats 1)
      ⟨"open", .malformed "not-a-number", [], none⟩).2.2 (Or.inr rfl)⟩

theorem userInv_zero : userInv UserStats.zero := by
  simp [userInv, UserStats.zero]

theorem userInv_bumpUser (c ip od : Bool) {us : UserStats} (h : userInv us) :
    userInv (bumpUser c ip od us) := by
  unfold userInv at h ⊢
  unfold bumpUser
  split_ifs <;> simp_all <;> omega

theorem updateUser_inv {m : List (String × UserStats)} {u : String}
    {f : UserStats → UserStats}
    (hm : ∀ p ∈ m, userInv p.2) (hf : ∀ us, userInv us → userInv (f us))
    (hz : userInv UserStats.zero) :
    ∀ p ∈ updateUser m u f, userInv p.2 := by
  induction m with
  | nil =>
    intro p hp
    simp only [updateUser, List.mem_singleton] at hp
    subst hp
    exact hf _ hz
  | cons kv rest ih =>
    obtain ⟨k, v⟩ := kv
    intro p hp
    rw [updateUser] at hp
    split_ifs at hp with hk
    · rcases List.mem_cons.mp hp with rfl | hmem
      · exact hf _ (hm (k, v) (List.mem_cons_self _ _))
      · exact hm _ (List.mem_cons_of_mem _ hmem)
    · rcases List.mem_cons.mp hp with rfl | hmem
      · exact hm _ (List.mem_cons_self _ _)
      · exact ih (fun q hq => hm q (List.mem_cons_of_mem _ hq)) p hmem

theorem foldl_updateUser_inv (c ip od : Bool) (l : List String)
    {m : List (String × UserStats)} (hm : ∀ p ∈ m, userInv p.2) :
    ∀ p ∈ l.foldl (fun m u => updateUser m u (bumpUser c ip od)) m, userInv p.2 := by
  induction l generalizing m with
  | nil => exact hm
  | cons u rest ih =>
    exact ih (updateUser_inv hm (fun us h => userInv_bumpUser c ip od h) userInv_zero)

theorem processTask_completed_pending (nowMs : Int) (s : Stats) (t : TaskRec) :
    (processTask nowMs s t).completed + (processTask nowMs s t).pending =
      s.completed + s.pending + 1 := by
  unfold processTask
  dsimp only
  rw [foldl_assignStep]
  split_ifs <;> simp <;> omega

theorem processTask_total (nowMs : Int) (s : Stats) (t : TaskRec) :
    (processTask nowMs s t).total = s.total := by
  unfold processTask
  dsimp only
  rw [foldl_assignStep]
  split_ifs <;> simp

theorem bumpPriorities_mono (p : Option Int) (bp : PriorityStats) :
    bp.urgent ≤ (bumpPriorities p bp).urgent ∧
    bp.high ≤ (bumpPriorities p bp).high ∧
    bp.normal ≤ (bumpPriorities p bp).normal ∧
    bp.low ≤ (bumpPriorities p bp).low := by
  unfold bumpPriorities
  split_ifs <;> simp

theorem processTask_by_priority (nowMs : Int) (s : Stats) (t : TaskRec) :
    (processTask nowMs s t).by_priority = bumpPriorities t.priority_id s.by_priority := by
  unfold processTask
  dsimp only
  rw [foldl_assignStep]
  split_ifs <;> rfl

theorem processTask_mono (nowMs : Int) (s : Stats) (t : TaskRec) :
    s.completed ≤ (processTask nowMs s t).completed ∧
    s.pending ≤ (processTask nowMs s t).pending ∧
    s.overdue ≤ (processTask nowMs s t).overdue ∧
    s.unassigned ≤ (processTask nowMs s t).unassigned ∧
    s.in_progress ≤ (processTask nowMs s t).in_progress ∧
    s.by_priority.urgent ≤ (processTask nowMs s t).by_priority.urgent ∧
    s.by_priority.high ≤ (processTask nowMs s t).by_priority.high ∧
    s.by_priority.normal ≤ (processTask nowMs s t).by_priority.normal ∧
    s.by_priority.low ≤ (processTask nowMs s t).by_priority.low := by
  have hbp := bumpPriorities_mono t.priority_id s.by_priority
  rw [← processTask_by_priority nowMs s t] at hbp
  refine ⟨?_, ?_, ?_, ?_, ?_, hbp.1, hbp.2.1, hbp.2.2.1, hbp.2.2.2⟩ <;>
  · unfold processTask
    dsimp only
    rw [foldl_assignStep]
    split_ifs <;> simp

theorem processTask_buckets (nowMs : Int) (s : Stats) (t : TaskRec)
    (hm : ∀ p ∈ s.by_user, userInv p.2) :
    ∀ p ∈ (processTask nowMs s t).by_user, userInv p.2 := by
  unfold processTask
  dsimp only
  rw [foldl_assignStep]
  split_ifs <;>
    first
      | exact hm
      | exact foldl_updateUser_inv _ _ _ _ hm

theorem foldl_processTask_count (nowMs : Int) (l : List TaskRec) (s : Stats) :
    (l.foldl (processTask nowMs) s).completed + (l.foldl (processTask nowMs) s).pending =
      s.completed + s.pending + l.length := by
  induction l generalizing s with
  | nil => simp
  | cons t rest ih =>
    rw [List.foldl_cons, ih]
    have h := processTask_completed_pending nowMs s t
    push_cast [List.length_cons]
    omega

theorem foldl_processTask_total (nowMs : Int) (l : List TaskRec) (s : Stats) :
    (l.foldl (processTask nowMs) s).total = s.total := by
  induction l generalizing s with
  | nil => rfl
  | cons t rest ih => rw [List.foldl_cons, ih, processTask_total]

theorem foldl_processTask_mono (nowMs : Int) (l : List TaskRec) (s : Stats) :
    s.completed ≤ (l.foldl (processTask nowMs) s).completed ∧
    s.pending ≤ (l.foldl (processTask nowMs) s).pending ∧
    s.overdue ≤ (l.foldl (processTask nowMs) s).overdue ∧
    s.unassigned ≤ (l.foldl (processTask nowMs) s).unassigned ∧
    s.in_progress ≤ (l.foldl (processTask nowMs) s).in_progress ∧
    s.by_priority.urgent ≤ (l.foldl (processTask nowMs) s).by_priority.urgent ∧
    s.by_priority.high ≤ (l.foldl (processTask nowMs) s).by_priority.high ∧
    s.by_priority.normal ≤ (l.foldl (processTask nowMs) s).by_priority.normal ∧
    s.by_priority.low ≤ (l.foldl (processTask nowMs) s).by_priority.low := by
  induction l generalizing s with
  | nil => simp
  | cons t rest ih =>
    rw [List.foldl_cons]
    have h1 := processTask_mono nowMs s t
    have h2 := ih (processTask nowMs s t)
    omega

theorem foldl_processTask_buckets (nowMs : Int) (l : List TaskRec) (s : Stats)
    (hm : ∀ p ∈ s.by_user, userInv p.2) :
    ∀ p ∈ (l.foldl (processTask nowMs) s).by_user, userInv p.2 := by
  induction l generalizing s with
  | nil => exact hm
  | cons t rest ih =>
    rw [List.foldl_cons]
    exact ih _ (processTask_buckets nowMs s t hm)

/-- C6: for every input task list the aggregated statistics satisfy the
data-model invariant — all counts non-negative and
`completed + pending = total`, at the top level and in every per-user
bucket. -/
theorem stats_invariant (nowMs : Int) (tasks : List TaskRec) :
    statsInv (analyze_tasks nowMs tasks) := by
  unfold analyze_tasks statsInv
  have hcount := foldl_processTask_count nowMs tasks (initStats tasks.length)
  have htotal := foldl_processTask_total nowMs tasks (initStats tasks.length)
  have hmono := foldl_processTask_mono nowMs tasks (initStats tasks.length)
  have hbuckets := foldl_processTask_buckets nowMs tasks (initStats tasks.length)
    (by simp [initStats])
  have hinit : (initStats tasks.length).completed = 0 ∧
      (initStats tasks.length).pending = 0 ∧
      (initStats tasks.length).overdue = 0 ∧
      (initStats tasks.length).unassigned = 0 ∧
      (initStats tasks.length).in_progress = 0 ∧
      (initStats tasks.length).total = (tasks.length : Int) ∧
      (initStats tasks.length).by_priority.urgent = 0 ∧
      (initStats tasks.length).by_priority.high = 0 ∧
      (initStats tasks.length).by_priority.normal = 0 ∧
      (initStats tasks.length).by_priority.low = 0 := by
    simp [initStats]
  refine ⟨?_, ?_, ?_, ?_, ?_, ?_, ?_, ?_, ?_, ?_, ?_, hbuckets⟩ <;> omega

/-! ### Completion timing -/

theorem hours_diff_neg_iff (dueMs nowMs : Int) :
    hours_diff dueMs nowMs < 0 ↔ dueMs - nowMs < 0 := by
  unfold hours_diff
  rw [div_lt_iff₀ (by norm_num), div_lt_iff₀ (by norm_num)]
  norm_num

theorem hours_diff_ge24_iff (dueMs nowMs : Int) :
    (24 : ℚ) ≤ hours_diff dueMs nowMs ↔ 24 * 3600000 ≤ dueMs - nowMs := by
  unfold hours_diff
  rw [le_div_iff₀ (by norm_num), le_div_iff₀ (by norm_num)]
  norm_num
  constructor <;> intro h <;> exact_mod_cast h

theorem classify_completion_iff (dueMs nowMs : Int) :
    (classify_completion dueMs nowMs = .late ↔ dueMs - nowMs < 0) ∧
    (classify_completion dueMs nowMs = .early ↔ 24 * 3600000 ≤ dueMs - nowMs) ∧
    (classify_completion dueMs nowMs = .onTime ↔
      0 ≤ dueMs - nowMs ∧ dueMs - nowMs < 24 * 3600000) := by
  have hlt := hours_diff_neg_iff dueMs nowMs
  have hge := hours_diff_ge24_iff dueMs nowMs
  unfold classify_completion
  split_ifs with h1 h2
  · have hI := hlt.mp h1
    refine ⟨?_, ?_, ?_⟩ <;> simp <;> omega
  · have hI := hge.mp h2
    have hn1 : ¬(dueMs - nowMs < 0) := fun hc => h1 (hlt.mpr hc)
    refine ⟨?_, ?_, ?_⟩ <;> simp <;> omega
  · have hn1 : ¬(dueMs - nowMs < 0) := fun hc => h1 (hlt.mpr hc)
    have hn2 : ¬(24 * 3600000 ≤ dueMs - nowMs) := fun hc => h2 (hge.mpr hc)
    refine ⟨?_, ?_, ?_⟩ <;> simp <;> omega

/-- C1: for a status change into a completion synonym on a task with a
(parsed) due date, the timing variant is computed from
`(due − now)` in hours: negative → late-deadline variant, at least 24
hours → ahead-of-schedule variant, otherwise (in `[0, 24)` hours) the
on-schedule variant; in particular `due = now + 2h` is on-time,
`due = now − 3h` is late, and `due = now + 48h` is early. -/
theorem completion_timing_classification (new_status : String) (dueMs nowMs : Int)
    (h : pyLower new_status ∈ completedStatuses) :
    completion_timing new_status (.valid dueMs) nowMs =
      some (classify_completion dueMs nowMs) ∧
    (classify_completion dueMs nowMs = .late ↔ dueMs - nowMs < 0) ∧
    (classify_completion dueMs nowMs = .early ↔ 24 * 3600000 ≤ dueMs - nowMs) ∧
    (classify_completion dueMs nowMs = .onTime ↔
      0 ≤ dueMs - nowMs ∧ dueMs - nowMs < 24 * 3600000) ∧
    classify_completion (nowMs + 2 * 3600000) nowMs = .onTime ∧
    classify_completion (nowMs - 3 * 3600000) nowMs = .late ∧
    classify_completion (nowMs + 48 * 3600000) nowMs = .early := by
  refine ⟨?_, (classify_completion_iff dueMs nowMs).1,
    (classify_completion_iff dueMs nowMs).2.1,
    (classify_completion_iff dueMs nowMs).2.2, ?_, ?_, ?_⟩
  · unfold completion_timing
    rw [if_pos h]
  · exact (classify_completion_iff _ nowMs).2.2.mpr (by omega)
  · exact (classify_completion_iff _ nowMs).1.mpr (by omega)
  · exact (classify_completion_iff _ nowMs).2.1.mpr (by omega)

theorem completion_timing_classification_witness :
    completion_timing "done" (.valid 7200000) 0 = some .onTime := by
  have h := completion_timing_classification "done" 7200000 0 (by decide)
  rw [h.1, (h.2.2.2.1).mpr (by norm_num)]

/-! ### Per-user ranking -/

theorem userDescLe_trans (a b c : String × UserStats)
    (hab : userDescLe a b) (hbc : userDescLe b c) : userDescLe a c := by
  simp only [userDescLe, decide_eq_true_eq] at *
  exact le_trans hbc hab

theorem userDescLe_total (a b : String × UserStats) :
    userDescLe a b || userDescLe b a := by
  simp only [userDescLe, Bool.or_eq_true, decide_eq_true_eq]
  exact (le_total (kpiKey a.2) (kpiKey b.2)).symm.imp id id

/-- C7: the per-user ranking used for report display is a permutation
of the bucket list ordered descending by completion ratio
(`completed/total`, `0` when `total = 0`); equal ratios keep their
relative input order (stability); in particular a user with ratio `1`
is listed before a user with ratio `1/2`. -/
theorem user_ranking_desc_stable (m : List (String × UserStats)) :
    (sorted_users m).Pairwise (fun a b => kpiKey b.2 ≤ kpiKey a.2) ∧
    List.Perm (sorted_users m) m ∧
    (∀ a b, List.Sublist [a, b] m → kpiKey a.2 = kpiKey b.2 →
      List.Sublist [a, b] (sorted_users m)) ∧
    sorted_users [("u_half", ⟨1, 1, 0, 0, 2⟩), ("u_full", ⟨2, 0, 0, 0, 2⟩)] =
      [("u_full", ⟨2, 0, 0, 0, 2⟩), ("u_half", ⟨1, 1, 0, 0, 2⟩)] := by
  refine ⟨?_, ?_, ?_, ?_⟩
  · exact (List.sorted_mergeSort userDescLe_trans userDescLe_total m).imp
      (fun h => by simpa [userDescLe] using h)
  · exact List.mergeSort_perm m userDescLe
  · intro a b hsub heq
    refine List.pair_sublist_mergeSort userDescLe_trans userDescLe_total ?_ hsub
    simp only [userDescLe, decide_eq_true_eq]
    exact le_of_eq heq.symm
  · have hle : userDescLe ("u_half", ⟨1, 1, 0, 0, 2⟩) ("u_full", ⟨2, 0, 0, 0, 2⟩) = false := by
      simp [userDescLe, kpiKey]
      norm_num
    simp [sorted_users, List.mergeSort, List.splitInTwo, List.splitAt, List.splitAt.go,
      List.merge, hle]

theorem user_ranking_desc_stable_witness :
    List.Sublist [(("a" : String), (⟨1, 0, 0, 0, 1⟩ : UserStats)), ("b", ⟨2, 0, 0, 0, 2⟩)]
      (sorted_users [("a", ⟨1, 0, 0, 0, 1⟩), ("b", ⟨2, 0, 0, 0, 2⟩)]) :=
  (user_ranking_desc_stable [("a", ⟨1, 0, 0, 0, 1⟩), ("b", ⟨2, 0, 0, 0, 2⟩)]).2.2.1
    _ _ (List.Sublist.refl _) (by norm_num [kpiKey])

/-! ### The tag-changed slice of the webhook handler -/

/-- C8 fails on the code as stated: only the counterexample below and
the corrected routing description hold.  Counterexample: the initial
snapshot carries a `dev` tag, the re-fetched snapshot would carry a
`content` tag, yet the `tag_removed` notification goes to the dev chat
(the routing of the initial fetch), not to the content chat the
re-fetched tag set would give — the re-fetch oracle is never even
consulted. -/
theorem tag_removed_keeps_initial_routing :
    webhookTagSends "D" ⟨[.str "dev"]⟩ [some ⟨[.str "content"]⟩] [.tag_removed "dev"] =
      [[CHAT_dev]] ∧
    get_all_chat_ids_from_tags "D" [.str "content"] = [CHAT_content] ∧
    CHAT_dev ≠ CHAT_content := by decide

/-- C8 (amended): a `tag_added` history item re-fetches the task and
routes its notification by the tags of the re-fetched snapshot
(sending nothing when the re-fetch fails), while a `tag_removed` item sends to
the routing computed from the initially fetched snapshot, without
re-fetching; unrelated items send nothing in this loop. -/
theorem tag_event_routing_sources (default : String) (initial : TaskSnapshot)
    (fetches : List (Option TaskSnapshot)) (items : List HistoryItem)
    (f : TaskSnapshot) (a r : String) :
    webhookTagSends default initial (some f :: fetches) (.tag_added a :: items) =
      get_all_chat_ids_from_tags default f.tags ::
        webhookTagSends default initial fetches items ∧
    webhookTagSends default initial (none :: fetches) (.tag_added a :: items) =
      webhookTagSends default initial fetches items ∧
    webhookTagSends default initial fetches (.tag_removed r :: items) =
      get_all_chat_ids_from_tags default initial.tags ::
        webhookTagSends default initial fetches items ∧
    webhookTagSends default initial fetches (.otherField :: items) =
      webhookTagSends default initial fetches items :=
  ⟨rfl, rfl, rfl, rfl⟩

end BotTele
